import Mathlib

/-!
Shallow embedding of the Stanford CS110L exercise repository
(`deet` debugger, `linked_list`, `rwc`), together with proofs checking the
natural-language specification against the code.
-/

set_option linter.unusedVariables false

/-! ## Week 3: `linked_list/src/linked_list.rs` -/

/-- Embeds `LinkedList<T>` from `src/week3/linked_list/src/linked_list.rs`:
a head chain of boxed nodes (modelled as a Lean list, front first) together
with the separately maintained `size` field. -/
structure LinkedList (α : Type) where
  head : List α
  size : Nat
deriving Repr, DecidableEq

/-- Embeds `LinkedList::new`: empty head, size 0. -/
def LinkedList.new {α : Type} : LinkedList α := ⟨[], 0⟩

/-- Embeds `LinkedList::get_size`: returns the `size` field. -/
def LinkedList.get_size {α : Type} (l : LinkedList α) : Nat := l.size

/-- Embeds `LinkedList::is_empty`: `get_size == 0`. -/
def LinkedList.is_empty {α : Type} (l : LinkedList α) : Bool := l.get_size = 0

/-- Embeds `LinkedList::push_front`: new node holding `value` points at the
old head, `size` is incremented. -/
def LinkedList.push_front {α : Type} (l : LinkedList α) (value : α) : LinkedList α :=
  ⟨value :: l.head, l.size + 1⟩

/-- Embeds `LinkedList::pop_front`: `self.head.take()?` returns `None` on an
empty list leaving the state untouched; otherwise the head node is unlinked,
`size` is decremented and the value returned.  The pair is (returned value,
list after the call). -/
def LinkedList.pop_front {α : Type} (l : LinkedList α) : Option α × LinkedList α :=
  match l.head with
  | [] => (none, l)
  | v :: rest => (some v, ⟨rest, l.size - 1⟩)

/-- Embeds `impl Clone for LinkedList`: walk the list front to back inserting
each cloned value at index 0 of a vector (so the vector ends up reversed),
then `push_front` every vector element in order onto a fresh list. -/
def LinkedList.clone {α : Type} (l : LinkedList α) : LinkedList α :=
  let elements : List α := l.head.foldl (fun acc v => v :: acc) []
  elements.foldl (fun nl v => nl.push_front v) LinkedList.new

/-! ## Week 2: `rwc/src/main.rs` -/

namespace Rwc

/-- Models the trailing carriage-return stripping done by
`BufRead::lines`: a final CR is removed only from lines that were terminated
by a newline (CRLF handling). -/
def stripTrailingCR (l : List Char) : List Char :=
  if l.getLast? = some '\x0d' then l.dropLast else l

/-- Models the iteration of `io::BufReader::new(file).lines()` over the file
content: `acc` is the reversed current line; a `'\n'` terminates a line
(stripping a CR that preceded it); a final unterminated line is yielded only
if nonempty, so a file ending in `'\n'` yields no extra empty line. -/
def linesAux : List Char → List Char → List (List Char)
  | acc, [] => if acc = [] then [] else [acc.reverse]
  | acc, c :: rest =>
    if c = '\n' then stripTrailingCR acc.reverse :: linesAux [] rest
    else linesAux (c :: acc) rest

/-- Models the sequence of lines `BufRead::lines` yields for a file content. -/
def rustLines (content : List Char) : List (List Char) := linesAux [] content

/-- Models Rust `str::len` on a line: its length in bytes under UTF-8. -/
def lineBytes (l : List Char) : Nat := l.foldl (fun n c => n + c.utf8Size) 0

/-- Embeds `str.split(' ').collect::<Vec<&str>>()`: the pieces of the line
between single-space separators (an empty line yields one empty piece). -/
def splitSp : List Char → List (List Char)
  | [] => [[]]
  | c :: rest =>
    if c = ' ' then [] :: splitSp rest
    else
      match splitSp rest with
      | [] => [[c]]
      | s :: ss => (c :: s) :: ss

/-- Embeds the counting loop of `src/week2/rwc/src/main.rs::main`: per line
read, `line_cnt += 1`, `char_cnt += str.len()`, and `word_cnt` grows by the
number of `split(' ')` pieces.  Returns `(line_cnt, word_cnt, char_cnt)`. -/
def rwc (content : List Char) : Nat × Nat × Nat :=
  let ls := rustLines content
  (ls.length,
   ls.foldl (fun n l => n + (splitSp l).length) 0,
   ls.foldl (fun n l => n + lineBytes l) 0)

end Rwc

/-! ## Project 1: `deet/src/debugger.rs` (plus the Inferior, modelled from the spec) -/

namespace Deet

/-- Embeds the check `addr.to_lowercase().starts_with("0x")` from
`Debugger::parse_addr`.  Unicode lowercasing maps a character to `'0'` only
when it already is `'0'`, and to `'x'` only from `'x'`/`'X'` (no multi-char
lowercase expansion begins with either), so the check holds exactly when the
string begins with `'0'` followed by `'x'` or `'X'`. -/
def hasHexPrefix : List Char → Bool
  | '0' :: 'x' :: _ => true
  | '0' :: 'X' :: _ => true
  | _ => false

/-- Embeds `char::to_digit(16)` as used by `usize::from_str_radix(_, 16)`. -/
def toDigit16 (c : Char) : Option Nat :=
  if '0' ≤ c ∧ c ≤ '9' then some (c.toNat - '0'.toNat)
  else if 'a' ≤ c ∧ c ≤ 'f' then some (c.toNat - 'a'.toNat + 10)
  else if 'A' ≤ c ∧ c ≤ 'F' then some (c.toNat - 'A'.toNat + 10)
  else none

/-- Number of values of the Rust `usize` type (64-bit target). -/
def USIZE : Nat := 2 ^ 64

/-- Embeds the digit-accumulation loop of `usize::from_str_radix(_, 16)`:
each digit multiplies the accumulator by 16 and adds the digit, failing on
an invalid digit or on overflow past `usize`. -/
def go16 : List Char → Nat → Option Nat
  | [], acc => some acc
  | c :: cs, acc =>
    match toDigit16 c with
    | none => none
    | some d => if acc * 16 + d < USIZE then go16 cs (acc * 16 + d) else none

/-- Embeds the sign handling of `usize::from_str_radix`: for an unsigned
type only a single leading `'+'` is consumed (a `'-'` is left in place and
then fails as an invalid digit). -/
def stripPlus : List Char → List Char
  | '+' :: r => r
  | s => s

/-- Embeds `usize::from_str_radix(suffix, 16)`: optional `'+'`, then a
nonempty run of hex digits, failing on overflow. -/
def fromStrRadix16 (s : List Char) : Option Nat :=
  let digits := stripPlus s
  if digits = [] then none else go16 digits 0

/-- Embeds `Debugger::parse_addr` from `src/proj-1/deet/src/debugger.rs`:
strip a case-insensitive `0x` prefix (byte slice `&addr[2..]`, two one-byte
chars) and hand the suffix to `usize::from_str_radix(_, 16)`. -/
def parse_addr (addr : List Char) : Option Nat :=
  let suffix := if hasHexPrefix addr then addr.drop 2 else addr
  fromStrRadix16 suffix

/-- Digit list an address string denotes under the wording of the amended
claim: the text after the optional case-insensitive `0x` prefix and the
optional leading `'+'` sign. -/
def addrDigits (s : List Char) : List Char :=
  stripPlus (if hasHexPrefix s then s.drop 2 else s)

/-- Parses every character of a digit run with `toDigit16`, failing if any
character is not a hex digit. -/
def mapDigits : List Char → Option (List Nat)
  | [] => some []
  | c :: cs =>
    match toDigit16 c with
    | none => none
    | some d =>
      match mapDigits cs with
      | none => none
      | some ds => some (d :: ds)

/-- Value of a most-significant-first digit list. -/
def hexVal (ds : List Nat) : Nat := ds.foldl (fun a d => a * 16 + d) 0

/-- Embeds `enum Status` from `deet/src/inferior.rs` as used by
`debugger.rs`: `Exited(exit_code)`, `Signaled(signal)`,
`Stopped(signal, rip)`. -/
inductive Status
  | Exited (code : Nat)
  | Signaled (sig : String)
  | Stopped (sig : String) (rip : Nat)
deriving Repr, DecidableEq

/-- Lifecycle phase of the traced process (spec section 4.1 state machine;
`stopped` is the only phase in which it may be resumed or inspected). -/
inductive Phase
  | stopped
  | exited (code : Nat)
  | signaledBy (sig : String)
deriving Repr, DecidableEq

/-- Modelled from the spec: the immutable facts about the target executable
that `inferior.rs` (absent from the sources) interacts with through the OS.
`prog a` gives the pc after executing the original instruction at `a`
(`none` = the process exits with code 0), `mapped` tells which addresses can
be patched, `origByte` is the original memory byte, `readWord` reads a
machine word for stack walking, `entry`/`rbp0` are the initial register
values at the trace stop after exec, and `startOk` says whether spawning the
target under trace succeeds at all. -/
structure Target where
  entry : Nat
  rbp0 : Nat
  prog : Nat → Option Nat
  mapped : Nat → Bool
  origByte : Nat → Nat
  readWord : Nat → Option Nat
  startOk : Bool

/-- Modelled from the spec: the dynamic state of the traced process
(`Inferior` in `deet/src/inferior.rs`, absent from the sources): registers
`rip`/`rbp`, the breakpoint entries currently patched into memory (address
with the displaced original byte), the log of original instructions the
target has executed (its observable side effects), and the lifecycle
phase. -/
structure Inferior where
  rip : Nat
  rbp : Nat
  installed : List (Nat × Nat)
  effects : List Nat
  phase : Phase
deriving Repr, DecidableEq

/-- Looks up the displaced original byte recorded for an address. -/
def findOrig (a : Nat) : List (Nat × Nat) → Option Nat
  | [] => none
  | (x, b) :: rest => if a = x then some b else findOrig a rest

/-- Removes the breakpoint entry for an address (restore bookkeeping). -/
def removeAddr (a : Nat) (l : List (Nat × Nat)) : List (Nat × Nat) :=
  l.filter (fun e => e.1 ≠ a)

/-- Modelled from the spec: patching the trap opcode at one address while
recording the displaced byte; an address outside mapped memory is skipped
(non-fatal), and an address that already holds the trap is left as is. -/
def installBp (tgt : Target) (inst : List (Nat × Nat)) (a : Nat) : List (Nat × Nat) :=
  if tgt.mapped a then
    match findOrig a inst with
    | some _ => inst
    | none => (a, tgt.origByte a) :: inst
  else inst

/-- Modelled from the spec: `Inferior::new` spawns the target stopped before
its first instruction and patches every requested breakpoint address,
skipping unmapped ones; `none` when spawning under trace fails. -/
def Inferior.new (tgt : Target) (args : List String) (bps : List Nat) : Option Inferior :=
  if tgt.startOk then
    some { rip := tgt.entry, rbp := tgt.rbp0,
           installed := bps.foldl (installBp tgt) [],
           effects := [], phase := .stopped }
  else none

/-- Raw outcome of letting the target run: it executed the trap patched at
an address, or it exited. -/
inductive RawStop
  | trapAt (a : Nat)
  | exited (code : Nat)
deriving Repr, DecidableEq

/-- Modelled from the spec: the target runs freely until it executes a
patched trap (stop event, no side effect from the displaced instruction) or
exits; every original instruction executed is appended to the effect log.
Fuel-bounded; `none` is exhaustion of the model's fuel, not a behaviour of
the code. -/
def runUntil (tgt : Target) (inst : List (Nat × Nat)) :
    Nat → Nat → List Nat → Option (RawStop × List Nat)
  | 0, _, _ => none
  | fuel + 1, pc, eff =>
    match findOrig pc inst with
    | some _ => some (.trapAt pc, eff)
    | none =>
      match tgt.prog pc with
      | none => some (.exited 0, eff ++ [pc])
      | some pc2 => runUntil tgt inst fuel pc2 (eff ++ [pc])

/-- Result of `Inferior::cont` / `Inferior::terminate`: a status together
with the updated process, a clean error, or fuel exhaustion (a model
artifact only). -/
inductive ContRes
  | ok (s : Status) (inf : Inferior)
  | err (msg : String)
  | fuelOut
deriving Repr, DecidableEq

/-- Translates the raw run outcome into a `Status` and updated process.
A trap at breakpoint `a` leaves the hardware `rip` at `a + 1` but the
reported instruction pointer is already rewound to `a` itself (spec
section 4.5 rendering rule). -/
def contFrom (tgt : Target) (inst : List (Nat × Nat)) (fuel pc : Nat)
    (eff : List Nat) (inf : Inferior) : ContRes :=
  match runUntil tgt inst fuel pc eff with
  | none => .fuelOut
  | some (.trapAt a, eff2) =>
    .ok (.Stopped "SIGTRAP" a)
      { inf with rip := a + 1, installed := inst, effects := eff2, phase := .stopped }
  | some (.exited c, eff2) =>
    .ok (.Exited c)
      { inf with installed := inst, effects := eff2, phase := .exited c }

/-- Modelled from the spec: `Inferior::cont` (resume).  Invalid once the
process is terminal.  When stopped just past a patched trap (the recorded
breakpoint address equals `rip - 1`), first step over it: restore the
original byte, rewind the instruction pointer, single-step the original
instruction exactly once, then re-install the trap (skipped if that single
step exited the process).  Then let the target run to its next stop or
exit. -/
def Inferior.cont (tgt : Target) (fuel : Nat) (inf : Inferior) : ContRes :=
  match inf.phase with
  | .exited _ => .err "the target is not alive"
  | .signaledBy _ => .err "the target is not alive"
  | .stopped =>
    match findOrig (inf.rip - 1) inf.installed with
    | some b =>
      let a := inf.rip - 1
      let inst1 := removeAddr a inf.installed
      match tgt.prog a with
      | none =>
        .ok (.Exited 0)
          { inf with rip := a, installed := inst1,
                     effects := inf.effects ++ [a], phase := .exited 0 }
      | some pc2 => contFrom tgt ((a, b) :: inst1) fuel pc2 (inf.effects ++ [a]) inf
    | none => contFrom tgt inf.installed fuel inf.rip inf.effects inf

/-- Modelled from the spec: `Inferior::terminate`.  A still-alive process is
killed and reaped to a final `Signaled` status; an already terminal process
reports its previously observed terminal status again. -/
def Inferior.terminate (tgt : Target) (inf : Inferior) : Status × Inferior :=
  match inf.phase with
  | .stopped => (.Signaled "SIGKILL", { inf with phase := .signaledBy "SIGKILL" })
  | .exited c => (.Exited c, inf)
  | .signaledBy s => (.Signaled s, inf)

/-- Modelled from the spec: `Inferior::write_byte`, a raw single-byte poke
returning the displaced byte, together with the breakpoint-table
bookkeeping the spec binds to patch/restore (writing the trap opcode
records an entry, writing anything else removes it).  Fails on an unmapped
address or when the process is not stopped. -/
def Inferior.write_byte (tgt : Target) (inf : Inferior) (addr val : Nat) :
    Except String (Nat × Inferior) :=
  match inf.phase with
  | .stopped =>
    if tgt.mapped addr then
      let prev :=
        match findOrig addr inf.installed with
        | some _ => 0xcc
        | none => tgt.origByte addr
      let inst2 :=
        if val = 0xcc then installBp tgt inf.installed addr
        else removeAddr addr inf.installed
      .ok (prev, { inf with installed := inst2 })
    else .error "address not mapped"
  | _ => .error "inferior not stopped"

/-- Embeds the query surface of `DwarfData` used by `debugger.rs`:
`get_function_from_addr` and `get_line_from_addr`. -/
structure DwarfData where
  func : Nat → Option String
  line : Nat → Option Nat

/-- Embeds `enum DebuggerCommand` as consumed by `Debugger::run` (produced
by the excluded command parser). -/
inductive DebuggerCommand
  | Run (args : List String)
  | Continue
  | BackTrace
  | Breakpoint (s : List Char)
  | Quit

/-- One line the debugger prints, kept structured instead of as rendered
text (the spec fixes the semantics of the output, not its wording). -/
inductive Output
  | exitedOut (code : Nat)
  | signaledOut (sig : String)
  | stoppedOut (rip : Nat) (sig : String) (fn : String) (line : Nat)
  | runFailedOut (msg : String)
  | startErrorOut
  | pleaseRunFirstOut
  | bpWriteFailedOut (addr : Nat) (msg : String)
  | bpSetOut (num : Nat) (addr : Nat)
  | invalidBpOut
  | backtraceOut (frames : List (Option String × Option Nat))
deriving Repr, DecidableEq

/-- Embeds `Debugger::print_status` from `debugger.rs`: terminal statuses
print code or signal; a `Stopped` status resolves function and line of the
reported instruction pointer with `.unwrap()` on both — `none` here is that
unwrap panicking. -/
def print_status (dd : DwarfData) : Status → Option Output
  | .Exited c => some (.exitedOut c)
  | .Signaled s => some (.signaledOut s)
  | .Stopped s rip =>
    match dd.func rip, dd.line rip with
    | some f, some ln => some (.stoppedOut rip s f ln)
    | _, _ => none

/-- Modelled from the spec: the stack walk behind
`Inferior::print_backtrace` (absent from the sources), section 4.4: emit
the current frame, stop at `main` or on a zero/unreadable frame pointer,
else follow the saved return address and saved frame pointer.  Fuel bounds
the walk (the spec's explicit maximum frame count). -/
def stackWalk (dd : DwarfData) (tgt : Target) : Nat → Nat → Nat → List (Option String × Option Nat)
  | 0, _, _ => []
  | fuel + 1, ip, fp =>
    (dd.func ip, dd.line ip) ::
      (if dd.func ip = some "main" ∨ fp = 0 then []
       else
         match tgt.readWord (fp + 8), tgt.readWord fp with
         | some ip2, some fp2 => stackWalk dd tgt fuel ip2 fp2
         | _, _ => [])

/-- Embeds the state owned by `struct Debugger` that the command loop
mutates: the optional inferior and the ordered breakpoint registry
(`breakpoints: Vec<usize>`). -/
structure DebuggerState where
  inferior : Option Inferior
  breakpoints : List Nat
deriving Repr, DecidableEq

/-- Outcome of dispatching one command: the updated state with the lines
printed and whether the loop returns (`quit`); `panicked` is a Rust panic
(an `unwrap()` of `None`); `fuelOut` is exhaustion of the model's fuel. -/
inductive StepRes
  | ok (st : DebuggerState) (out : List Output) (quit : Bool)
  | panicked
  | fuelOut
deriving Repr, DecidableEq

/-- Embeds one iteration of the `match` in `Debugger::run`
(`src/proj-1/deet/src/debugger.rs`), arm by arm:

* `Run`: if an inferior exists, `terminate` it and print its status; then
  spawn a fresh inferior with the registered breakpoints, `cont` it once
  and print the result (or print the start error, keeping the old field).
* `Continue`: with no inferior print "please run target first"; otherwise
  `cont` and print.
* `BackTrace`: `self.inferior.as_mut().unwrap()` — a panic when no
  inferior exists — then print the walked stack.
* `Breakpoint`: parse the address; on success push it, patch live memory
  when an inferior exists (warning on failure), and print the new
  breakpoint's number `breakpoints.len() - 1`; on failure print the format
  error.
* `Quit`: `self.inferior.as_mut().unwrap()` — a panic when no inferior
  exists — then terminate, print the status and return. -/
def stepCommand (tgt : Target) (dd : DwarfData) (fuel : Nat) (st : DebuggerState) :
    DebuggerCommand → StepRes
  | .Run args =>
    let term : Option (Option Inferior × List Output) :=
      match st.inferior with
      | some inf =>
        let r := inf.terminate tgt
        match print_status dd r.1 with
        | some o => some (some r.2, [o])
        | none => none
      | none => some (none, [])
    match term with
    | none => .panicked
    | some (infKeep, out1) =>
      match Inferior.new tgt args st.breakpoints with
      | some inf2 =>
        match Inferior.cont tgt fuel inf2 with
        | .ok s2 inf3 =>
          match print_status dd s2 with
          | some o2 => .ok ⟨some inf3, st.breakpoints⟩ (out1 ++ [o2]) false
          | none => .panicked
        | .err m => .ok ⟨some inf2, st.breakpoints⟩ (out1 ++ [.runFailedOut m]) false
        | .fuelOut => .fuelOut
      | none => .ok ⟨infKeep, st.breakpoints⟩ (out1 ++ [.startErrorOut]) false
  | .Continue =>
    match st.inferior with
    | none => .ok st [.pleaseRunFirstOut] false
    | some inf =>
      match Inferior.cont tgt fuel inf with
      | .ok s2 inf2 =>
        match print_status dd s2 with
        | some o => .ok ⟨some inf2, st.breakpoints⟩ [o] false
        | none => .panicked
      | .err m => .ok st [.runFailedOut m] false
      | .fuelOut => .fuelOut
  | .BackTrace =>
    match st.inferior with
    | none => .panicked
    | some inf => .ok st [.backtraceOut (stackWalk dd tgt fuel inf.rip inf.rbp)] false
  | .Breakpoint s =>
    match parse_addr s with
    | some addr =>
      let bps2 := st.breakpoints ++ [addr]
      match st.inferior with
      | some inf =>
        match inf.write_byte tgt addr 0xcc with
        | .ok r =>
          .ok ⟨some r.2, bps2⟩ [.bpSetOut st.breakpoints.length addr] false
        | .error m =>
          .ok ⟨some inf, bps2⟩
            [.bpWriteFailedOut addr m, .bpSetOut st.breakpoints.length addr] false
      | none => .ok ⟨none, bps2⟩ [.bpSetOut st.breakpoints.length addr] false
    | none => .ok st [.invalidBpOut] false
  | .Quit =>
    match st.inferior with
    | none => .panicked
    | some inf =>
      let r := inf.terminate tgt
      match print_status dd r.1 with
      | some o => .ok ⟨some r.2, st.breakpoints⟩ [o] true
      | none => .panicked

/-- Outcome of feeding a whole command list through the loop of
`Debugger::run`. -/
inductive SessRes
  | ran (st : DebuggerState) (outs : List Output)
  | quitOk (st : DebuggerState) (outs : List Output)
  | panicked
  | fuelOut
deriving Repr, DecidableEq

/-- Embeds the command loop of `Debugger::run` over a finite command list:
dispatch each command in turn, stopping when an arm returns (`quitOk`),
panics, or the input is exhausted with the session still accepting
commands (`ran`). -/
def runSession (tgt : Target) (dd : DwarfData) (fuel : Nat) :
    DebuggerState → List Output → List DebuggerCommand → SessRes
  | st, acc, [] => .ran st acc
  | st, acc, c :: cs =>
    match stepCommand tgt dd fuel st c with
    | .ok st2 out true => .quitOk st2 (acc ++ out)
    | .ok st2 out false => runSession tgt dd fuel st2 (acc ++ out) cs
    | .panicked => .panicked
    | .fuelOut => .fuelOut

/-- The state `Debugger::new` starts the loop in: no inferior, no
breakpoints. -/
def initState : DebuggerState := ⟨none, []⟩

/-- Fixed concrete target used to instantiate witnesses: every instruction
exits the process, nothing is mapped, start succeeds. -/
def tgt0 : Target :=
  ⟨0, 0, fun _ => none, fun _ => false, fun _ => 0, fun _ => none, true⟩

/-- Fixed concrete resolver used to instantiate witnesses: everything
resolves to `main`, line 1. -/
def dd0 : DwarfData := ⟨fun _ => some "main", fun _ => some 1⟩

/-- Concrete loop target for the breakpoint witnesses: control cycles
`0 → 1 → 2 → 0`, all memory mapped. -/
def tgtLoop : Target :=
  ⟨0, 0, fun n => some ((n + 1) % 3), fun _ => true, fun _ => 0x90, fun _ => none, true⟩

/-- Chains of raw (unpatched) execution: `RunsTo tgt A p l` says the target,
started at `p`, reaches `A` after executing exactly the instructions at the
addresses in `l` (all distinct from `A`). -/
inductive RunsTo (tgt : Target) (A : Nat) : Nat → List Nat → Prop
  | done : RunsTo tgt A A []
  | step {p q : Nat} {l : List Nat} :
      p ≠ A → tgt.prog p = some q → RunsTo tgt A q l → RunsTo tgt A p (p :: l)

end Deet

/-! ## Theorems -/

theorem foldl_cons_rev {α : Type} (xs acc : List α) :
    xs.foldl (fun a v => v :: a) acc = xs.reverse ++ acc := by
  induction xs generalizing acc with
  | nil => simp
  | cons x xs ih => simp [ih, List.append_assoc]

theorem foldl_push_front {α : Type} (xs : List α) (nl : LinkedList α) :
    xs.foldl (fun l v => l.push_front v) nl = ⟨xs.reverse ++ nl.head, nl.size + xs.length⟩ := by
  induction xs generalizing nl with
  | nil => cases nl; simp
  | cons x xs ih =>
    rw [List.foldl_cons, ih]
    cases nl with
    | mk h s =>
      simp [LinkedList.push_front, List.append_assoc, LinkedList.mk.injEq]
      omega

/-- C8: `push_front` grows `get_size` by one; an immediately following
`pop_front` returns the pushed value and restores the original list and
size; on the empty list `pop_front` returns `none`, leaves the list
unchanged, and the size is 0. -/
theorem C8_push_pop_roundtrip {α : Type} (l : LinkedList α) (v : α) :
    (l.push_front v).get_size = l.get_size + 1 ∧
    (l.push_front v).pop_front = (some v, l) ∧
    (LinkedList.new : LinkedList α).pop_front = (none, LinkedList.new) ∧
    (LinkedList.new : LinkedList α).get_size = 0 := by
  refine ⟨rfl, ?_, rfl, rfl⟩
  cases l with
  | mk h s => simp [LinkedList.push_front, LinkedList.pop_front]

/-- C9: `clone` preserves the element sequence in order; its size equals the
number of elements, hence whenever the size field is consistent with the
chain (as it is for every list built through the public operations) the
clone equals the original in both elements and size. -/
theorem C9_clone_preserves {α : Type} (l : LinkedList α) :
    (l.clone).head = l.head ∧ (l.clone).size = l.head.length ∧
    (l.size = l.head.length → l.clone = l) := by
  have h : l.clone = ⟨l.head, l.head.length⟩ := by
    unfold LinkedList.clone
    rw [foldl_cons_rev, foldl_push_front]
    simp [LinkedList.new]
  refine ⟨by rw [h], by rw [h], fun hs => ?_⟩
  rw [h]
  cases l with
  | mk hd s =>
    simp only [LinkedList.mk.injEq, true_and]
    exact hs.symm

/-- Witness for C9 at a concrete three-element list. -/
theorem C9_witness : (LinkedList.clone ⟨[1, 2, 3], 3⟩) = (⟨[1, 2, 3], 3⟩ : LinkedList Nat) :=
  (C9_clone_preserves ⟨[1, 2, 3], 3⟩).2.2 rfl

theorem splitSp_ne_nil (l : List Char) : Rwc.splitSp l ≠ [] := by
  cases l with
  | nil => simp [Rwc.splitSp]
  | cons c rest =>
    simp only [Rwc.splitSp]
    split
    · simp
    · cases h : Rwc.splitSp rest <;> simp

theorem splitSp_length (l : List Char) :
    (Rwc.splitSp l).length = l.count ' ' + 1 := by
  induction l with
  | nil => simp [Rwc.splitSp]
  | cons c rest ih =>
    by_cases hc : c = ' '
    · subst hc
      simp [Rwc.splitSp, List.count_cons, ih]
    · have hne := splitSp_ne_nil rest
      cases h : Rwc.splitSp rest with
      | nil => exact absurd h hne
      | cons s ss =>
        rw [h] at ih
        simp only [Rwc.splitSp, if_neg hc, h, List.length_cons, List.count_cons] at ih ⊢
        have hb : (c == ' ') = false := by simp [hc]
        rw [hb]
        simpa using ih

theorem foldl_add_eq {β : Type} (f : β → Nat) (L : List β) (n : Nat) :
    L.foldl (fun acc x => acc + f x) n = n + (L.map f).sum := by
  induction L generalizing n with
  | nil => simp
  | cons x xs ih => simp [ih, Nat.add_assoc]

/-- C10: the word-count program reports the number of lines, the sum over
lines of the piece count of `split(' ')` — which equals the line's space
count plus one, so consecutive spaces and empty lines inflate the word
count — and the sum over lines of the line's byte length with line
terminators already stripped. -/
theorem C10_rwc_counts (content : List Char) :
    Rwc.rwc content =
      ((Rwc.rustLines content).length,
       ((Rwc.rustLines content).map (fun l => l.count ' ' + 1)).sum,
       ((Rwc.rustLines content).map Rwc.lineBytes).sum) := by
  have hf : (fun l : List Char => (Rwc.splitSp l).length) =
      (fun l : List Char => l.count ' ' + 1) := funext splitSp_length
  simp [Rwc.rwc, foldl_add_eq, hf]

theorem foldl_hex_le (vs : List Nat) (a : Nat) :
    a ≤ vs.foldl (fun x d => x * 16 + d) a := by
  induction vs generalizing a with
  | nil => exact Nat.le_refl a
  | cons d vs ih =>
    calc a ≤ a * 16 + d := by omega
      _ ≤ vs.foldl (fun x d => x * 16 + d) (a * 16 + d) := ih _

theorem go16_sound (cs : List Char) (acc n : Nat) (ha : acc < Deet.USIZE)
    (h : Deet.go16 cs acc = some n) :
    ∃ vs, Deet.mapDigits cs = some vs ∧
      n = vs.foldl (fun x d => x * 16 + d) acc ∧ n < Deet.USIZE := by
  induction cs generalizing acc with
  | nil =>
    simp only [Deet.go16, Option.some.injEq] at h
    exact ⟨[], rfl, h.symm, h ▸ ha⟩
  | cons c cs ih =>
    simp only [Deet.go16] at h
    cases hd : Deet.toDigit16 c with
    | none => simp [hd] at h
    | some d =>
      simp only [hd] at h
      by_cases hlt : acc * 16 + d < Deet.USIZE
      · rw [if_pos hlt] at h
        obtain ⟨vs, hm, hn, hb⟩ := ih _ hlt h
        exact ⟨d :: vs, by simp [Deet.mapDigits, hd, hm], by simpa using hn, hb⟩
      · rw [if_neg hlt] at h
        exact absurd h (by simp)

theorem go16_complete (cs : List Char) (vs : List Nat) (acc : Nat)
    (hm : Deet.mapDigits cs = some vs)
    (hb : vs.foldl (fun x d => x * 16 + d) acc < Deet.USIZE) :
    Deet.go16 cs acc = some (vs.foldl (fun x d => x * 16 + d) acc) := by
  induction cs generalizing vs acc with
  | nil =>
    simp only [Deet.mapDigits, Option.some.injEq] at hm
    subst hm
    rfl
  | cons c cs ih =>
    simp only [Deet.mapDigits] at hm
    cases hd : Deet.toDigit16 c with
    | none => simp [hd] at hm
    | some d =>
      simp only [hd] at hm
      cases hds : Deet.mapDigits cs with
      | none => simp [hds] at hm
      | some ds =>
        simp only [hds] at hm
        obtain rfl : d :: ds = vs := by simpa using hm
        have hb2 : ds.foldl (fun x d => x * 16 + d) (acc * 16 + d) < Deet.USIZE := by
          simpa using hb
        have hlt : acc * 16 + d < Deet.USIZE :=
          Nat.lt_of_le_of_lt (foldl_hex_le ds (acc * 16 + d)) hb2
        simp only [Deet.go16, hd, if_pos hlt]
        rw [ih ds _ hds hb2]
        simp

theorem mapDigits_cons_ne_nil (c : Char) (cs : List Char) (vs : List Nat)
    (hm : Deet.mapDigits (c :: cs) = some vs) : vs ≠ [] := by
  simp only [Deet.mapDigits] at hm
  cases hd : Deet.toDigit16 c with
  | none => simp [hd] at hm
  | some d =>
    simp only [hd] at hm
    cases hds : Deet.mapDigits cs with
    | none => simp [hds] at hm
    | some ds =>
      simp only [hds] at hm
      obtain rfl : d :: ds = vs := by simpa using hm
      simp

/-- C3 (amended): `parse_addr` accepts exactly the strings that, after the
optional case-insensitive `0x`/`0X` prefix, consist of an optional leading
`'+'` sign followed by a nonempty run of case-insensitive hex digits whose
value fits in `usize`, and returns that value; all the concrete examples of
the claim behave as it states. -/
theorem C3_parse_addr_amended :
    (∀ s n, Deet.parse_addr s = some n ↔
       ∃ vs, Deet.mapDigits (Deet.addrDigits s) = some vs ∧ vs ≠ [] ∧
         n = Deet.hexVal vs ∧ n < Deet.USIZE) ∧
    Deet.parse_addr "0x1a".toList = some 26 ∧
    Deet.parse_addr "0X1A".toList = some 26 ∧
    Deet.parse_addr "1a".toList = some 26 ∧
    Deet.parse_addr "xyz".toList = none ∧
    Deet.parse_addr "".toList = none ∧
    Deet.parse_addr "0xg1".toList = none := by
  refine ⟨fun s n => ?_, by decide, by decide, by decide, by decide, by decide, by decide⟩
  show Deet.fromStrRadix16 _ = some n ↔ _
  rw [Deet.fromStrRadix16]
  have hdig : Deet.stripPlus (if Deet.hasHexPrefix s then s.drop 2 else s) =
      Deet.addrDigits s := rfl
  rw [hdig]
  by_cases hnil : Deet.addrDigits s = []
  · rw [if_pos hnil, hnil]
    constructor
    · intro h; exact absurd h (by simp)
    · rintro ⟨vs, hm, hne, _, _⟩
      obtain rfl : ([] : List Nat) = vs := by simpa [Deet.mapDigits] using hm
      exact absurd rfl hne
  · rw [if_neg hnil]
    constructor
    · intro h
      obtain ⟨vs, hm, hn, hb⟩ := go16_sound _ 0 n (by decide) h
      refine ⟨vs, hm, ?_, hn, hb⟩
      cases hcs : Deet.addrDigits s with
      | nil => exact absurd hcs hnil
      | cons c cs => exact mapDigits_cons_ne_nil c cs vs (hcs ▸ hm)
    · rintro ⟨vs, hm, hne, rfl, hb⟩
      exact go16_complete _ vs 0 hm hb

/-- C3 counterexample: the code accepts `"+1a"` (a string that is not hex
digits with an optional `0x` prefix) and rejects the 17-hex-digit string
`"10000000000000000"` (which is exactly such a string) because its value
overflows `usize`, so the claim's "accepts exactly" fails in both
directions. -/
theorem C3_counterexample :
    Deet.parse_addr "+1a".toList = some 26 ∧
    Deet.parse_addr "10000000000000000".toList = none := by
  constructor <;> decide

theorem runsTo_not_mem {tgt : Deet.Target} {A p : Nat} {l : List Nat}
    (h : Deet.RunsTo tgt A p l) : A ∉ l := by
  induction h with
  | done => simp
  | step hne hp ht ih =>
    intro hmem
    rcases List.mem_cons.mp hmem with h1 | h2
    · exact hne h1.symm
    · exact ih h2

theorem runUntil_of_runsTo {tgt : Deet.Target} {A : Nat} (b : Nat) {p : Nat} {l : List Nat}
    (h : Deet.RunsTo tgt A p l) :
    ∀ fuel eff, l.length < fuel →
      Deet.runUntil tgt [(A, b)] fuel p eff = some (.trapAt A, eff ++ l) := by
  induction h with
  | done =>
    intro fuel eff hf
    cases fuel with
    | zero => exact absurd hf (by simp)
    | succ f => simp [Deet.runUntil, Deet.findOrig]
  | @step p q l hne hp ht ih =>
    intro fuel eff hf
    cases fuel with
    | zero => exact absurd hf (by simp)
    | succ f =>
      have hfo : Deet.findOrig p [(A, b)] = none := by
        simp [Deet.findOrig, hne]
      simp only [Deet.runUntil, hfo, hp]
      rw [ih f (eff ++ [p]) (by simpa using Nat.lt_of_succ_lt_succ hf)]
      simp

theorem cont_hits {tgt : Deet.Target} {A b p : Nat} {l : List Nat}
    (hp : tgt.prog A = some p) (h : Deet.RunsTo tgt A p l) (rbp : Nat) (eff : List Nat)
    {fuel : Nat} (hf : l.length < fuel) :
    Deet.Inferior.cont tgt fuel ⟨A + 1, rbp, [(A, b)], eff, .stopped⟩ =
      .ok (.Stopped "SIGTRAP" A) ⟨A + 1, rbp, [(A, b)], eff ++ A :: l, .stopped⟩ := by
  have hrun := runUntil_of_runsTo b h fuel (eff ++ [A]) hf
  simp only [Deet.Inferior.cont, Nat.add_sub_cancel]
  rw [show Deet.findOrig A [(A, b)] = some b from by simp [Deet.findOrig]]
  have hAA : (decide (A ≠ A)) = false := by simp
  simp only [Deet.removeAddr, List.filter, hAA, hp, Deet.contFrom]
  rw [hrun]
  simp

/-- C2: with the single registered breakpoint A patched and the target
stopped having just reported a stop at A (hardware rip is A + 1), any raw
execution path of the target that leads from the instruction after A back
to A makes each of two successive resumes report `Stopped` with
instruction pointer exactly A (not A + 1), and each pass appends the side
effects `A :: l` in which the instruction at A occurs exactly once. -/
theorem C2_breakpoint_loop {tgt : Deet.Target} {A b p : Nat} {l : List Nat}
    (rbp : Nat) (eff : List Nat) {fuel : Nat}
    (hp : tgt.prog A = some p) (h : Deet.RunsTo tgt A p l) (hf : l.length < fuel) :
    Deet.Inferior.cont tgt fuel ⟨A + 1, rbp, [(A, b)], eff, .stopped⟩ =
      .ok (.Stopped "SIGTRAP" A) ⟨A + 1, rbp, [(A, b)], eff ++ A :: l, .stopped⟩ ∧
    Deet.Inferior.cont tgt fuel ⟨A + 1, rbp, [(A, b)], eff ++ A :: l, .stopped⟩ =
      .ok (.Stopped "SIGTRAP" A)
        ⟨A + 1, rbp, [(A, b)], (eff ++ A :: l) ++ A :: l, .stopped⟩ ∧
    (A :: l).count A = 1 :=
  ⟨cont_hits hp h rbp eff hf, cont_hits hp h rbp (eff ++ A :: l) hf,
   by rw [List.count_cons_self, List.count_eq_zero.mpr (runsTo_not_mem h)]⟩

/-- Witness for C2 on the loop target `0 → 1 → 2 → 0` with a breakpoint
at address 1. -/
theorem C2_witness :
    Deet.Inferior.cont Deet.tgtLoop 3 ⟨2, 0, [(1, 0x90)], [], .stopped⟩ =
      .ok (.Stopped "SIGTRAP" 1) ⟨2, 0, [(1, 0x90)], [1, 2, 0], .stopped⟩ ∧
    Deet.Inferior.cont Deet.tgtLoop 3 ⟨2, 0, [(1, 0x90)], [1, 2, 0], .stopped⟩ =
      .ok (.Stopped "SIGTRAP" 1) ⟨2, 0, [(1, 0x90)], [1, 2, 0, 1, 2, 0], .stopped⟩ ∧
    ([1, 2, 0] : List Nat).count 1 = 1 :=
  C2_breakpoint_loop 0 []
    (by decide)
    (.step (by decide) (by decide) (.step (by decide) (by decide) .done))
    (by decide)

/-- C1: the claim that the session never panics fails in the code. `quit`
as the first command, and `backtrace` before any `run`, both call
`self.inferior.as_mut().unwrap()` on `None` and panic; and printing a
`Stopped` status whose instruction pointer neither resolves to a function
nor to a line unwraps `None` in `print_status`. -/
theorem C1_session_panics :
    (∀ tgt dd fuel, Deet.runSession tgt dd fuel Deet.initState [] [.Quit] = .panicked) ∧
    (∀ tgt dd fuel bps,
      Deet.runSession tgt dd fuel ⟨none, bps⟩ [] [.BackTrace] = .panicked) ∧
    (∀ sig rip,
      Deet.print_status ⟨fun _ => none, fun _ => none⟩ (.Stopped sig rip) = none) :=
  ⟨fun _ _ _ => rfl, fun _ _ _ _ => rfl, fun _ _ => rfl⟩

/-- C7: with no inferior, `continue` is guarded and reports "please run
target first" leaving the session running, but `backtrace` is not guarded:
it unwraps `None` and panics instead of reporting a recoverable
condition. -/
theorem C7_no_target :
    (∀ tgt dd fuel bps,
      Deet.stepCommand tgt dd fuel ⟨none, bps⟩ .Continue =
        .ok ⟨none, bps⟩ [.pleaseRunFirstOut] false) ∧
    (∀ tgt dd fuel bps,
      Deet.stepCommand tgt dd fuel ⟨none, bps⟩ .BackTrace = .panicked) :=
  ⟨fun _ _ _ _ => rfl, fun _ _ _ _ => rfl⟩

/-- C4: a `run` command with a live (stopped) inferior first terminates it
and reports its terminal status, and only then starts a fresh inferior with
the currently registered breakpoint addresses, resumes it exactly once and
reports the resulting status — in this order. -/
theorem C4_run_restarts (tgt : Deet.Target) (dd : Deet.DwarfData) (fuel : Nat)
    (args : List String) (bps : List Nat) (rip rbp : Nat)
    (inst : List (Nat × Nat)) (eff : List Nat)
    (inf2 inf3 : Deet.Inferior) (s2 : Deet.Status) (o2 : Deet.Output)
    (hnew : Deet.Inferior.new tgt args bps = some inf2)
    (hcont : Deet.Inferior.cont tgt fuel inf2 = .ok s2 inf3)
    (hps : Deet.print_status dd s2 = some o2) :
    Deet.stepCommand tgt dd fuel ⟨some ⟨rip, rbp, inst, eff, .stopped⟩, bps⟩ (.Run args) =
      .ok ⟨some inf3, bps⟩ [.signaledOut "SIGKILL", o2] false := by
  simp only [Deet.stepCommand, Deet.Inferior.terminate, hnew, hcont, hps]
  rw [show Deet.print_status dd (.Signaled "SIGKILL") =
    some (.signaledOut "SIGKILL") from rfl]
  simp

/-- Witness for C4 on a target whose first instruction exits. -/
theorem C4_witness :
    Deet.stepCommand Deet.tgt0 Deet.dd0 1 ⟨some ⟨7, 0, [], [], .stopped⟩, []⟩ (.Run []) =
      .ok ⟨some ⟨0, 0, [], [0], .exited 0⟩, []⟩
        [.signaledOut "SIGKILL", .exitedOut 0] false :=
  C4_run_restarts Deet.tgt0 Deet.dd0 1 [] [] 7 0 [] [] _ _ _ _ rfl rfl rfl

/-- C5: a `breakpoint` command with parsable address text appends the
address to the registry (numbers are positional, stable and never reused,
and a repeated address gets a fresh number) and reports the new
breakpoint's number, which is its index in the registration order; with
unparsable text it reports a format error and leaves the state
unchanged. -/
theorem C5_breakpoint_registry (tgt : Deet.Target) (dd : Deet.DwarfData)
    (fuel : Nat) (st : Deet.DebuggerState) (s : List Char) :
    (∀ a, Deet.parse_addr s = some a →
      ∃ io outs, Deet.stepCommand tgt dd fuel st (.Breakpoint s) =
          .ok ⟨io, st.breakpoints ++ [a]⟩ outs false ∧
        outs.getLast? = some (.bpSetOut st.breakpoints.length a)) ∧
    (Deet.parse_addr s = none →
      Deet.stepCommand tgt dd fuel st (.Breakpoint s) = .ok st [.invalidBpOut] false) := by
  constructor
  · intro a ha
    cases st with
    | mk io bps =>
      cases io with
      | none =>
        exact ⟨none, [.bpSetOut bps.length a], by simp [Deet.stepCommand, ha], rfl⟩
      | some inf =>
        cases hw : Deet.Inferior.write_byte tgt inf a 0xcc with
        | ok r =>
          exact ⟨some r.2, [.bpSetOut bps.length a],
            by simp [Deet.stepCommand, ha, hw], rfl⟩
        | error m =>
          exact ⟨some inf, [.bpWriteFailedOut a m, .bpSetOut bps.length a],
            by simp [Deet.stepCommand, ha, hw], rfl⟩
  · intro ha
    cases st with
    | mk io bps => simp [Deet.stepCommand, ha]

/-- Witness for C5: registering breakpoint "0x10" as the second breakpoint
reports number 1. -/
theorem C5_witness :
    ∃ io outs,
      Deet.stepCommand Deet.tgt0 Deet.dd0 1 ⟨none, [3]⟩ (.Breakpoint "0x10".toList) =
        .ok ⟨io, [3, 16]⟩ outs false ∧
      outs.getLast? = some (.bpSetOut 1 16) :=
  (C5_breakpoint_registry Deet.tgt0 Deet.dd0 1 ⟨none, [3]⟩ "0x10".toList).1 16 (by decide)

/-- C6: a `breakpoint` command while the inferior is alive attempts the
live-memory patch at once; when the poke fails the warning is printed, the
address stays registered, its number is still reported, and the session
continues (the step returns normally with quit = false). -/
theorem C6_breakpoint_patch_warning (tgt : Deet.Target) (dd : Deet.DwarfData)
    (fuel : Nat) (bps : List Nat) (rip rbp : Nat) (inst : List (Nat × Nat))
    (eff : List Nat) (s : List Char) (a : Nat)
    (hparse : Deet.parse_addr s = some a) (hmap : tgt.mapped a = false) :
    Deet.stepCommand tgt dd fuel ⟨some ⟨rip, rbp, inst, eff, .stopped⟩, bps⟩
        (.Breakpoint s) =
      .ok ⟨some ⟨rip, rbp, inst, eff, .stopped⟩, bps ++ [a]⟩
        [.bpWriteFailedOut a "address not mapped", .bpSetOut bps.length a] false := by
  simp [Deet.stepCommand, hparse, Deet.Inferior.write_byte, hmap]

/-- Witness for C6 at an unmapped address. -/
theorem C6_witness :
    Deet.stepCommand Deet.tgt0 Deet.dd0 1 ⟨some ⟨0, 0, [], [], .stopped⟩, []⟩
        (.Breakpoint "1a".toList) =
      .ok ⟨some ⟨0, 0, [], [], .stopped⟩, [26]⟩
        [.bpWriteFailedOut 26 "address not mapped", .bpSetOut 0 26] false :=
  C6_breakpoint_patch_warning Deet.tgt0 Deet.dd0 1 [] 0 0 [] [] _ 26 (by decide) rfl
